import Mathlib

/-!
# Verification of the airdrop lifecycle manager

A shallow embedding of `src/lib/airdrops/airdrop_manager.py` (class
`AirdropManager`).  The in-memory cache `self._state : dict[int, Airdrop]`
is modelled as an insertion-ordered association list with Python `dict`
semantics (update in place, append new keys, iteration in insertion order).
The Mongo collection `bot.db.db.airdrops` is modelled as a list of
documents.  External side effects (unpinning, distribution, embeds,
logging) are recorded in an effect trace; exceptions are modelled with
`Except`, with the state at the raise point kept (Python semantics: the
mutations already performed persist when an exception propagates).
-/

namespace AirdropMgr

/-- The `Airdrop` entity (fields as read back in
`AirdropManager.__fetch_db_state`: guild id `gid`, channel id `cid`,
message id `_id`, `amount`, `end_time`, `entrants`). -/
structure Airdrop where
  guild_id : Nat
  channel_id : Nat
  message_id : Nat
  amount : Int
  end_time : Int
  entrants : List Nat
deriving Repr, DecidableEq

/-- A persisted document of the `airdrops` collection, with the fields
that `__fetch_db_state` reads (`gid`, `cid`, `_id`, `amount`, `end_time`,
`entrants`). -/
structure DbDoc where
  gid : Nat
  cid : Nat
  id : Nat
  amount : Int
  end_time : Int
  entrants : List Nat
deriving Repr, DecidableEq

/-- Reconstruction of an `Airdrop` from a stored document, exactly as in
`AirdropManager.__fetch_db_state`. -/
def docToAirdrop (d : DbDoc) : Airdrop :=
  { guild_id := d.gid, channel_id := d.cid, message_id := d.id,
    amount := d.amount, end_time := d.end_time, entrants := d.entrants }

/-- Modelled from the spec: `Airdrop.to_db_dict` lives in
`src/lib/airdrops/airdrop.py`, which is not among the sources.  Per §6 the
stored record carries the same fields the entity has, keyed by the event
id; `__fetch_db_state` reads back `gid`, `cid`, `_id`, `amount`,
`end_time`, `entrants`, so the document is the field-for-field image of
the entity. -/
def Airdrop.to_db_dict (a : Airdrop) : DbDoc :=
  { gid := a.guild_id, cid := a.channel_id, id := a.message_id,
    amount := a.amount, end_time := a.end_time, entrants := a.entrants }

/-- Modelled from the spec: `Airdrop.ended` is a property defined in
`src/lib/airdrops/airdrop.py` (not among the sources).  §3: "Derived:
`hasEnded` = current time ≥ `endTime` (a pure function of clock, not
stored)." -/
def Airdrop.ended (a : Airdrop) (now : Int) : Bool :=
  now ≥ a.end_time

/-- Modelled from the spec: `Airdrop.ends_in` is a property defined in
`src/lib/airdrops/airdrop.py` (not among the sources); it is the remaining
time until `endTime`, i.e. `endTime - now`, so that `ends_in ≤ 0` at and
after expiry. -/
def Airdrop.ends_in (a : Airdrop) (now : Int) : Int :=
  a.end_time - now

/-- The in-memory cache `self._state : dict[int, Airdrop]` as an
insertion-ordered association list. -/
abbrev Cache := List (Nat × Airdrop)

/-- Model of `self._state.get(k)` — first (and, for a dict, only) binding of `k`. -/
def cacheGet (c : Cache) (k : Nat) : Option Airdrop :=
  match c with
  | [] => none
  | (k', v) :: rest => if k' = k then some v else cacheGet rest k

/-- Model of `self._state[k] = v` — overwrite in place if the key is present,
append otherwise (Python dict insertion-order semantics). -/
def cachePut (c : Cache) (k : Nat) (v : Airdrop) : Cache :=
  match c with
  | [] => [(k, v)]
  | (k', v') :: rest =>
    if k' = k then (k, v) :: rest else (k', v') :: cachePut rest k v

/-- Removal of the binding of `k` (the unique one, for a dict). -/
def eraseKey (c : Cache) (k : Nat) : Cache :=
  match c with
  | [] => []
  | (k', v') :: rest => if k' = k then rest else (k', v') :: eraseKey rest k

/-- Model of `del self._state[k]` — fails (KeyError) when the key is absent. -/
def cacheDel (c : Cache) (k : Nat) : Option Cache :=
  if (cacheGet c k).isSome then some (eraseKey c k) else none

/-- Model of `self._state.update(m)` — fold the bindings of `m` into the dict in
order; a later binding for the same key overwrites an earlier one, which
is exactly what building the comprehension dict first would do. -/
def cacheUpdate (c : Cache) (m : List (Nat × Airdrop)) : Cache :=
  m.foldl (fun acc p => cachePut acc p.1 p.2) c

/-- The value, if any, of the last binding of `k` in a binding list (the
binding that survives Python dict construction / `update`). -/
def lastLookup (m : List (Nat × Airdrop)) (k : Nat) : Option Airdrop :=
  match m with
  | [] => none
  | p :: rest =>
    match lastLookup rest k with
    | some v => some v
    | none => if p.1 = k then some p.2 else none

/-- A `find_one`-style first lookup in the store (used only to
state properties; the manager never reads single documents). -/
def storeFind (store : List DbDoc) (k : Nat) : Option DbDoc :=
  match store with
  | [] => none
  | d :: rest => if d.id = k then some d else storeFind rest k

/-- Model of `db.airdrops.delete_one` on `_id = k` — removes the first matching
document, a no-op when none matches. -/
def storeDelete (store : List DbDoc) (k : Nat) : List DbDoc :=
  match store with
  | [] => []
  | d :: rest => if d.id = k then rest else d :: storeDelete rest k

/-- The manager's mutable state: the cache `self._state` and the Mongo
`airdrops` collection. -/
structure ManagerState where
  state : Cache
  store : List DbDoc
deriving Repr, DecidableEq

/-- Exceptions that the modelled operations can raise:
`AirdropNotFound` from `get_airdrop`, Python's `KeyError` from
`del self._state[...]`, and a Funds-Backend failure propagating out of
`airdrop.resolve`. -/
inductive AirdropError where
  | notFound (id : Nat)
  | keyError (id : Nat)
  | distributionFailure (id : Nat)
deriving Repr, DecidableEq

/-- Externally observable effects, in program order: cache and store
mutations, Discord calls and Funds-Backend calls. -/
inductive Effect where
  | putCache (id : Nat)
  | removeCache (id : Nat)
  | dbInsert (doc : DbDoc)
  | dbDelete (id : Nat)
  | unpin (channelId id : Nat)
  | distribute (id : Nat) (entrants : List Nat) (amount : Int)
  | canAffordCheck (amount : Int)
  | respondInsufficientFunds (amount : Int)
  | respondConfirmed
  | sendRoot (channelId : Nat)
  | editRootView (id : Nat)
  | pinRoot (id : Nat)
  | notifyCancelled (id : Nat)
  | logDispatch (id : Nat)
deriving Repr, DecidableEq

/-- Result of one manager operation: the returned value or the exception,
the manager state when the operation finished (or when the exception left
the method), and the effect trace. -/
structure OpResult (α : Type) where
  res : Except AirdropError α
  state : ManagerState
  trace : List Effect
deriving Repr

/-- A reference to an airdrop, `Union[int, Airdrop]` in the source:
either a message id or the live entity. -/
inductive AirdropRef where
  | byId (id : Nat)
  | byEntity (a : Airdrop)
deriving Repr, DecidableEq

/-- Embeds `AirdropManager.get_airdrop`: if the argument is already an `Airdrop`
it is returned as is (the cache is not consulted); an id is looked up in
`self._state` and `AirdropNotFound` is raised when absent. -/
def get_airdrop (c : Cache) : AirdropRef → Except AirdropError Airdrop
  | .byId id =>
    match cacheGet c id with
    | some a => .ok a
    | none => .error (.notFound id)
  | .byEntity a => .ok a

/-- Embeds `AirdropManager._remove`: resolve the reference via `get_airdrop`,
`del self._state[message_id]`, unpin the message, then
`delete_one({'_id': message_id})` on the store. -/
def removeOp (s : ManagerState) (ref : AirdropRef) : OpResult Unit :=
  match get_airdrop s.state ref with
  | .error e => ⟨.error e, s, []⟩
  | .ok a =>
    match cacheDel s.state a.message_id with
    | none => ⟨.error (.keyError a.message_id), s, []⟩
    | some c' =>
      ⟨.ok (), { state := c', store := storeDelete s.store a.message_id },
       [.removeCache a.message_id, .unpin a.channel_id a.message_id,
        .dbDelete a.message_id]⟩

/-- Embeds `AirdropManager.resolve`: resolve the reference, `await
airdrop.resolve(self.bot)`, then `self._remove(airdrop)`.

Modelled from the spec: `Airdrop.resolve` lives in
`src/lib/airdrops/airdrop.py`, which is not among the sources.  Per §4.3
it "invokes the Funds Backend to distribute `amount` among `entrants`",
and per §7 it can fail with `DistributionFailure`, in which case the
exception propagates out of the manager's `resolve` before `_remove`
runs.  `distOk` is the Funds-Backend oracle saying whether distribution
for a given airdrop succeeds. -/
def resolveOp (distOk : Airdrop → Bool) (s : ManagerState) (ref : AirdropRef) :
    OpResult Unit :=
  match get_airdrop s.state ref with
  | .error e => ⟨.error e, s, []⟩
  | .ok a =>
    if distOk a then
      let r := removeOp s (.byEntity a)
      ⟨r.res, r.state, .distribute a.message_id a.entrants a.amount :: r.trace⟩
    else
      ⟨.error (.distributionFailure a.message_id), s,
       [.distribute a.message_id a.entrants a.amount]⟩

/-- Embeds `AirdropManager.cancel`: resolve the reference, `_remove` it, then
fetch the message, unpin it again and edit in the cancellation embed. -/
def cancelOp (s : ManagerState) (ref : AirdropRef) : OpResult Unit :=
  match get_airdrop s.state ref with
  | .error e => ⟨.error e, s, []⟩
  | .ok a =>
    let r := removeOp s (.byEntity a)
    match r.res with
    | .error e => ⟨.error e, r.state, r.trace⟩
    | .ok _ =>
      ⟨.ok (), r.state,
       r.trace ++ [.unpin a.channel_id a.message_id,
                   .notifyCancelled a.message_id]⟩

/-- Embeds `AirdropManager.__fetch_db_state`: read every document of the
collection and rebuild the `Airdrop` entities. -/
def fetch_db_state (store : List DbDoc) : List Airdrop :=
  store.map docToAirdrop

/-- The binding list `{ad.message_id: ad for ad in fetched}` built over
the documents of the store. -/
def storeEntries (store : List DbDoc) : List (Nat × Airdrop) :=
  (fetch_db_state store).map (fun ad => (ad.message_id, ad))

/-- Embeds `AirdropManager._fetch` (and `update`, `setup`):
`self._state.update({ad.message_id: ad for ad in fetched})` — a merge-only
refresh of the cache from the store. -/
def fetchOp (s : ManagerState) : ManagerState :=
  { s with state := cacheUpdate s.state (storeEntries s.store) }

/-- Result of `AirdropManager._add_from_message`, which returns the
created `Airdrop`. -/
structure CreateResult where
  airdrop : Airdrop
  state : ManagerState
  trace : List Effect
deriving Repr

/-- Embeds `AirdropManager._add_from_message`: build the airdrop from the anchor
message with `end_time = int(time.time()) + duration` (`Airdrop.from_message`
is modelled from the spec: it is defined in `src/lib/airdrops/airdrop.py`,
not among the sources; per §4.3 create "constructs an Event with `endTime
= now + duration`, `entrants = {}`" with identity taken from the anchor
message and location from the channel), `insert_one` it into the store,
then publish it in `self._state`. -/
def add_from_message (s : ManagerState) (guildId channelId rootMsgId : Nat)
    (amount : Int) (now duration : Int) : CreateResult :=
  let a : Airdrop :=
    { guild_id := guildId, channel_id := channelId, message_id := rootMsgId,
      amount := amount, end_time := now + duration, entrants := [] }
  { airdrop := a,
    state := { state := cachePut s.state a.message_id a,
               store := s.store ++ [a.to_db_dict] },
    trace := [.dbInsert a.to_db_dict, .putCache a.message_id] }

/-- Result of `AirdropManager.new_airdrop`.  `retval` is the Python
return value of the coroutine: `None` both on the insufficient-funds
early `return` and on falling off the end of the method. -/
structure NewAirdropResult where
  retval : Option Airdrop
  state : ManagerState
  trace : List Effect
deriving Repr

/-- Embeds `AirdropManager.new_airdrop`: check `can_afford` first and bail out
with the insufficient-funds response when it fails; otherwise respond
with the confirmation embed, send the root message in `channel or
ctx.channel`, `_add_from_message`, attach the button, edit and pin the
root message.  `canAfford` is the Funds-Backend answer, `rootMsgId` the
id Discord assigns to the sent root message. -/
def new_airdrop (canAfford : Bool) (s : ManagerState)
    (guildId ctxChannelId : Nat) (amount : Int) (now duration : Int)
    (channel : Option Nat) (rootMsgId : Nat) : NewAirdropResult :=
  if !canAfford then
    { retval := none, state := s,
      trace := [.canAffordCheck amount, .respondInsufficientFunds amount] }
  else
    let ch := channel.getD ctxChannelId
    let r := add_from_message s guildId ch rootMsgId amount now duration
    { retval := none, state := r.state,
      trace := [.canAffordCheck amount, .respondConfirmed, .sendRoot ch]
                ++ r.trace
                ++ [.editRootView rootMsgId, .pinRoot rootMsgId] }

/-- The per-airdrop effect block a successful sweep step produces: the
dispatch log line from `frame`, then the effects of `resolve`. -/
def resolveEvTrace (a : Airdrop) : List Effect :=
  [.logDispatch a.message_id,
   .distribute a.message_id a.entrants a.amount,
   .removeCache a.message_id,
   .unpin a.channel_id a.message_id,
   .dbDelete a.message_id]

/-- The second loop of `AirdropManager.frame`: resolve the collected
airdrops one at a time.  There is no `try`/`except` in the source, so the
first exception propagates out of `frame` and the remaining items are not
attempted. -/
def resolveLoop (distOk : Airdrop → Bool) (s : ManagerState) :
    List Airdrop → OpResult Unit
  | [] => ⟨.ok (), s, []⟩
  | ad :: rest =>
    let r := resolveOp distOk s (.byEntity ad)
    match r.res with
    | .error e => ⟨.error e, r.state, .logDispatch ad.message_id :: r.trace⟩
    | .ok _ =>
      let r2 := resolveLoop distOk r.state rest
      ⟨r2.res, r2.state, (.logDispatch ad.message_id :: r.trace) ++ r2.trace⟩

/-- The filter of `frame`'s first loop: the cached airdrops (in dict
iteration order) with `airdrop.ended and airdrop.ends_in <= 0`. -/
def dueFilter (now : Int) (c : Cache) : List Airdrop :=
  (c.map Prod.snd).filter (fun ad => ad.ended now && decide (ad.ends_in now ≤ 0))

/-- Embeds `AirdropManager.frame` (the sweep): `update()` (merge-only refresh
from the store), collect the due airdrops, then resolve them in order. -/
def frameOp (distOk : Airdrop → Bool) (now : Int) (s : ManagerState) :
    OpResult Unit :=
  let s1 := fetchOp s
  resolveLoop distOk s1 (dueFilter now s1.state)

/-- Well-formedness of the cache: keys are distinct (it is a dict), and
every binding keys an airdrop by its own `message_id` (all writers of
`self._state` use `ad.message_id` as the key). -/
def WFc (c : Cache) : Prop :=
  (c.map Prod.fst).Nodup ∧ ∀ p ∈ c, p.1 = p.2.message_id

instance (c : Cache) : Decidable (WFc c) := by
  unfold WFc; infer_instance

/-- Well-formedness of the manager state: well-formed cache and distinct
document ids in the store (`_id` is the Mongo primary key). -/
def WF (s : ManagerState) : Prop :=
  WFc s.state ∧ (s.store.map DbDoc.id).Nodup

instance (s : ManagerState) : Decidable (WF s) := by
  unfold WF; infer_instance

/-! ## Basic facts about the cache and store models -/

theorem cacheGet_cachePut_same (c : Cache) (k : Nat) (v : Airdrop) :
    cacheGet (cachePut c k v) k = some v := by
  induction c with
  | nil => simp [cachePut, cacheGet]
  | cons p rest ih =>
    obtain ⟨k', v'⟩ := p
    by_cases h : k' = k <;> simp [cachePut, cacheGet, h, ih]

theorem cacheGet_cachePut_other (c : Cache) (k k' : Nat) (v : Airdrop)
    (h : k' ≠ k) : cacheGet (cachePut c k v) k' = cacheGet c k' := by
  induction c with
  | nil => simp [cachePut, cacheGet, Ne.symm h]
  | cons p rest ih =>
    obtain ⟨k1, v1⟩ := p
    by_cases h1 : k1 = k
    · subst h1
      simp [cachePut, cacheGet, Ne.symm h]
    · by_cases h2 : k1 = k'
      · subst h2
        simp [cachePut, cacheGet, h1]
      · simp [cachePut, cacheGet, h1, h2, ih]

theorem mem_of_cacheGet {c : Cache} {k : Nat} {v : Airdrop}
    (h : cacheGet c k = some v) : (k, v) ∈ c := by
  induction c with
  | nil => simp [cacheGet] at h
  | cons p rest ih =>
    obtain ⟨k1, v1⟩ := p
    by_cases h1 : k1 = k
    · subst h1
      simp [cacheGet] at h
      simp [h]
    · simp [cacheGet, h1] at h
      exact List.mem_cons_of_mem _ (ih h)

theorem isSome_cacheGet_of_mem {c : Cache} {k : Nat} {v : Airdrop}
    (h : (k, v) ∈ c) : (cacheGet c k).isSome = true := by
  induction c with
  | nil => simp at h
  | cons p rest ih =>
    obtain ⟨k1, v1⟩ := p
    by_cases h1 : k1 = k
    · simp [cacheGet, h1]
    · rcases List.mem_cons.mp h with h2 | h2
      · cases h2; simp at h1
      · simp [cacheGet, h1, ih h2]

theorem cacheGet_eq_none_iff (c : Cache) (k : Nat) :
    cacheGet c k = none ↔ k ∉ c.map Prod.fst := by
  induction c with
  | nil => simp [cacheGet]
  | cons p rest ih =>
    obtain ⟨k1, v1⟩ := p
    by_cases h1 : k1 = k
    · subst h1; simp [cacheGet]
    · simp [cacheGet, h1, ih, Ne.symm h1]

theorem cacheGet_of_mem_nodup {c : Cache} {k : Nat} {v : Airdrop}
    (hnd : (c.map Prod.fst).Nodup) (h : (k, v) ∈ c) :
    cacheGet c k = some v := by
  induction c with
  | nil => simp at h
  | cons p rest ih =>
    obtain ⟨k1, v1⟩ := p
    rcases List.mem_cons.mp h with h2 | h2
    · cases h2; simp [cacheGet]
    · have hk1 : k1 ≠ k := by
        intro he
        subst he
        exact (List.nodup_cons.mp hnd).1 (List.mem_map.mpr ⟨(k1, v), h2, rfl⟩)
      simp [cacheGet, hk1]
      exact ih (List.nodup_cons.mp hnd).2 h2

theorem eraseKey_sublist (c : Cache) (k : Nat) : List.Sublist (eraseKey c k) c := by
  induction c with
  | nil => simp [eraseKey]
  | cons p rest ih =>
    obtain ⟨k1, v1⟩ := p
    by_cases h1 : k1 = k
    · simp [eraseKey, h1]
    · simpa [eraseKey, h1] using ih

theorem nodup_keys_eraseKey {c : Cache} (k : Nat)
    (hnd : (c.map Prod.fst).Nodup) : ((eraseKey c k).map Prod.fst).Nodup :=
  hnd.sublist ((eraseKey_sublist c k).map Prod.fst)

theorem cacheGet_eraseKey_other (c : Cache) (k k' : Nat) (h : k' ≠ k) :
    cacheGet (eraseKey c k) k' = cacheGet c k' := by
  induction c with
  | nil => simp [eraseKey]
  | cons p rest ih =>
    obtain ⟨k1, v1⟩ := p
    by_cases h1 : k1 = k
    · subst h1
      simp [eraseKey, cacheGet, Ne.symm h]
    · by_cases h2 : k1 = k'
      · subst h2
        simp [eraseKey, cacheGet, h1]
      · simp [eraseKey, cacheGet, h1, h2, ih]

theorem cacheGet_eraseKey_self (c : Cache) (k : Nat)
    (hnd : (c.map Prod.fst).Nodup) : cacheGet (eraseKey c k) k = none := by
  induction c with
  | nil => simp [eraseKey, cacheGet]
  | cons p rest ih =>
    obtain ⟨k1, v1⟩ := p
    by_cases h1 : k1 = k
    · subst h1
      simp [eraseKey]
      exact (cacheGet_eq_none_iff rest k1).mpr (List.nodup_cons.mp hnd).1
    · simp [eraseKey, cacheGet, h1]
      exact ih (List.nodup_cons.mp hnd).2

theorem WFc_eraseKey {c : Cache} (k : Nat) (h : WFc c) : WFc (eraseKey c k) :=
  ⟨nodup_keys_eraseKey k h.1,
   fun p hp => h.2 p ((eraseKey_sublist c k).subset hp)⟩

theorem keys_cachePut (c : Cache) (k : Nat) (v : Airdrop) :
    (cachePut c k v).map Prod.fst =
      if k ∈ c.map Prod.fst then c.map Prod.fst else c.map Prod.fst ++ [k] := by
  induction c with
  | nil => simp [cachePut]
  | cons p rest ih =>
    obtain ⟨k1, v1⟩ := p
    by_cases h1 : k1 = k
    · subst h1; simp [cachePut]
    · simp [cachePut, h1, ih, Ne.symm h1]
      by_cases h2 : k ∈ rest.map Prod.fst <;> simp [h2, Ne.symm h1]

theorem nodup_keys_cachePut {c : Cache} (k : Nat) (v : Airdrop)
    (hnd : (c.map Prod.fst).Nodup) : ((cachePut c k v).map Prod.fst).Nodup := by
  rw [keys_cachePut]
  by_cases h : k ∈ c.map Prod.fst
  · simpa [h] using hnd
  · simp [h, List.nodup_append, hnd]

theorem mem_cachePut {c : Cache} {k : Nat} {v : Airdrop} {p : Nat × Airdrop}
    (hp : p ∈ cachePut c k v) : p ∈ c ∨ p = (k, v) := by
  induction c with
  | nil => simp [cachePut] at hp; simp [hp]
  | cons q rest ih =>
    obtain ⟨k1, v1⟩ := q
    by_cases h1 : k1 = k
    · subst h1
      simp [cachePut] at hp
      rcases hp with h | h
      · right; simp [h]
      · left; exact List.mem_cons_of_mem _ h
    · simp [cachePut, h1] at hp
      rcases hp with h | h
      · left; simp [h]
      · rcases ih h with h2 | h2
        · left; exact List.mem_cons_of_mem _ h2
        · right; exact h2

theorem WFc_cachePut {c : Cache} {k : Nat} {v : Airdrop}
    (h : WFc c) (hk : k = v.message_id) : WFc (cachePut c k v) := by
  refine ⟨nodup_keys_cachePut k v h.1, fun p hp => ?_⟩
  rcases mem_cachePut hp with h2 | h2
  · exact h.2 p h2
  · subst h2; exact hk

theorem cacheGet_cacheUpdate (m : List (Nat × Airdrop)) :
    ∀ (c : Cache) (k : Nat),
      cacheGet (cacheUpdate c m) k =
        match lastLookup m k with
        | some v => some v
        | none => cacheGet c k := by
  induction m with
  | nil => intro c k; simp [cacheUpdate, lastLookup]
  | cons p rest ih =>
    intro c k
    have h1 : cacheUpdate c (p :: rest) = cacheUpdate (cachePut c p.1 p.2) rest := rfl
    rw [h1, ih]
    cases hr : lastLookup rest k with
    | some v => simp [lastLookup, hr]
    | none =>
      by_cases hk : p.1 = k
      · subst hk
        simp [lastLookup, hr, cacheGet_cachePut_same]
      · simp [lastLookup, hr, hk,
              cacheGet_cachePut_other c p.1 k p.2 (Ne.symm hk)]

theorem WFc_cacheUpdate (m : List (Nat × Airdrop)) :
    ∀ (c : Cache), WFc c → (∀ p ∈ m, p.1 = p.2.message_id) →
      WFc (cacheUpdate c m) := by
  induction m with
  | nil => intro c hc _; exact hc
  | cons p rest ih =>
    intro c hc hm
    exact ih (cachePut c p.1 p.2)
      (WFc_cachePut hc (hm p (List.mem_cons_self _ _)))
      (fun q hq => hm q (List.mem_cons_of_mem _ hq))

theorem storeFind_eq_none_iff (st : List DbDoc) (k : Nat) :
    storeFind st k = none ↔ k ∉ st.map DbDoc.id := by
  induction st with
  | nil => simp [storeFind]
  | cons d rest ih =>
    by_cases h1 : d.id = k
    · simp [storeFind, h1]
    · simp [storeFind, h1, ih, Ne.symm h1]

theorem storeDelete_sublist (st : List DbDoc) (k : Nat) :
    List.Sublist (storeDelete st k) st := by
  induction st with
  | nil => simp [storeDelete]
  | cons d rest ih =>
    by_cases h1 : d.id = k
    · simp [storeDelete, h1]
    · simpa [storeDelete, h1] using ih

theorem storeFind_storeDelete_other (st : List DbDoc) (k k' : Nat)
    (h : k' ≠ k) : storeFind (storeDelete st k) k' = storeFind st k' := by
  induction st with
  | nil => simp [storeDelete]
  | cons d rest ih =>
    by_cases h1 : d.id = k
    · subst h1
      simp [storeDelete, storeFind, Ne.symm h]
    · by_cases h2 : d.id = k'
      · simp [storeDelete, storeFind, h1, h2, h]
      · simp [storeDelete, storeFind, h1, h2, ih]

theorem storeFind_storeDelete_self (st : List DbDoc) (k : Nat)
    (hnd : (st.map DbDoc.id).Nodup) : storeFind (storeDelete st k) k = none := by
  induction st with
  | nil => simp [storeDelete, storeFind]
  | cons d rest ih =>
    by_cases h1 : d.id = k
    · subst h1
      simp [storeDelete]
      exact (storeFind_eq_none_iff rest d.id).mpr (List.nodup_cons.mp hnd).1
    · simp [storeDelete, storeFind, h1]
      exact ih (List.nodup_cons.mp hnd).2

theorem nodup_ids_storeDelete {st : List DbDoc} (k : Nat)
    (hnd : (st.map DbDoc.id).Nodup) :
    ((storeDelete st k).map DbDoc.id).Nodup :=
  hnd.sublist ((storeDelete_sublist st k).map DbDoc.id)

/-! ## Operation-level lemmas -/

/-- Lookup with a live entity never touches the cache. -/
theorem get_airdrop_byEntity (c : Cache) (a : Airdrop) :
    get_airdrop c (.byEntity a) = .ok a := rfl

/-- A successful `resolve` on a live entity: distribution first, then the
cache deletion, the unpin and the store deletion. -/
theorem resolveOp_byEntity_ok (d : Airdrop → Bool) (s : ManagerState)
    (ad : Airdrop) (hpres : (cacheGet s.state ad.message_id).isSome = true)
    (hd : d ad = true) :
    resolveOp d s (.byEntity ad) =
      ⟨.ok (), ⟨eraseKey s.state ad.message_id, storeDelete s.store ad.message_id⟩,
       [.distribute ad.message_id ad.entrants ad.amount,
        .removeCache ad.message_id, .unpin ad.channel_id ad.message_id,
        .dbDelete ad.message_id]⟩ := by
  simp [resolveOp, get_airdrop, removeOp, cacheDel, hpres, hd]

/-! ## Concrete fixtures used in witnesses and counterexamples -/

/-- A concrete airdrop: guild 1, channel 2, message id 42, amount 100,
expiry at 1060, entrants 7 and 8. -/
def wa1 : Airdrop :=
  { guild_id := 1, channel_id := 2, message_id := 42, amount := 100,
    end_time := 1060, entrants := [7, 8] }

/-- A concrete manager state holding exactly `wa1`, in cache and store. -/
def wS1 : ManagerState := ⟨[(42, wa1)], [wa1.to_db_dict]⟩

/-! ## Claim theorems -/

/-- C3: if the Funds Backend fails while `resolve` is distributing the
reward, the exception propagates before `_remove` runs, so the manager
state (Cache and Store) is unchanged and the event can still be looked up
for a later retry. -/
theorem resolve_distribution_failure_keeps_event (d : Airdrop → Bool)
    (s : ManagerState) (ref : AirdropRef) (a : Airdrop)
    (hget : get_airdrop s.state ref = .ok a) (hfail : d a = false) :
    resolveOp d s ref =
      ⟨.error (.distributionFailure a.message_id), s,
       [.distribute a.message_id a.entrants a.amount]⟩ ∧
    get_airdrop (resolveOp d s ref).state.state ref = .ok a := by
  have h1 : resolveOp d s ref =
      ⟨.error (.distributionFailure a.message_id), s,
       [.distribute a.message_id a.entrants a.amount]⟩ := by
    simp [resolveOp, hget, hfail]
  exact ⟨h1, by rw [h1]; exact hget⟩

/-- Witness for C3 at the concrete state `wS1` with an always-failing
Funds Backend. -/
theorem resolve_distribution_failure_keeps_event_witness :
    resolveOp (fun _ => false) wS1 (.byId 42) =
      ⟨.error (.distributionFailure 42), wS1, [.distribute 42 [7, 8] 100]⟩ ∧
    get_airdrop (resolveOp (fun _ => false) wS1 (.byId 42)).state.state
      (.byId 42) = .ok wa1 :=
  resolve_distribution_failure_keeps_event (fun _ => false) wS1 (.byId 42)
    wa1 rfl rfl

/-- Flag for the effects that remove the event (from the cache or the
store). -/
def isRemoval : Effect → Bool
  | .removeCache _ => true
  | .dbDelete _ => true
  | _ => false

/-- Flag for the funds-distribution effect. -/
def isDistribute : Effect → Bool
  | .distribute _ _ _ => true
  | _ => false

/-- Holds when no removal effect occurs before the first distribution
effect of the trace. -/
def removalsOnlyAfterDistribute : List Effect → Bool
  | [] => true
  | e :: rest =>
    if isDistribute e then true
    else !isRemoval e && removalsOnlyAfterDistribute rest

/-- C5: in every run of `resolve` no removal effect precedes the
distribution, and in every successful run the trace is exactly the
distribution followed by the cache removal, the unpin and the store
removal — removal strictly after the distribution commits. -/
theorem resolve_removes_only_after_distribution (d : Airdrop → Bool)
    (s : ManagerState) (ref : AirdropRef) :
    removalsOnlyAfterDistribute (resolveOp d s ref).trace = true ∧
    ((resolveOp d s ref).res = .ok () →
      ∃ a, get_airdrop s.state ref = .ok a ∧
        (resolveOp d s ref).trace =
          [.distribute a.message_id a.entrants a.amount,
           .removeCache a.message_id, .unpin a.channel_id a.message_id,
           .dbDelete a.message_id]) := by
  cases hget : get_airdrop s.state ref with
  | error e =>
    simp [resolveOp, hget, removalsOnlyAfterDistribute]
  | ok a =>
    cases hd : d a with
    | false =>
      simp [resolveOp, hget, hd, removalsOnlyAfterDistribute, isDistribute]
    | true =>
      cases hdel : cacheDel s.state a.message_id with
      | none =>
        simp [resolveOp, removeOp, get_airdrop_byEntity, hget, hd, hdel,
              removalsOnlyAfterDistribute, isDistribute]
      | some c' =>
        refine ⟨?_, fun _ => ⟨a, rfl, ?_⟩⟩
        · simp [resolveOp, removeOp, get_airdrop_byEntity, hget, hd, hdel,
                removalsOnlyAfterDistribute, isDistribute]
        · simp [resolveOp, removeOp, get_airdrop_byEntity, hget, hd, hdel]

/-- Witness for C5: a successful resolve on `wS1` produces exactly the
distribute-then-remove trace. -/
theorem resolve_removes_only_after_distribution_witness :
    ∃ a, get_airdrop wS1.state (.byId 42) = .ok a ∧
      (resolveOp (fun _ => true) wS1 (.byId 42)).trace =
        [.distribute a.message_id a.entrants a.amount,
         .removeCache a.message_id, .unpin a.channel_id a.message_id,
         .dbDelete a.message_id] :=
  (resolve_removes_only_after_distribution (fun _ => true) wS1 (.byId 42)).2 rfl

/-- C6: `_add_from_message` constructs the event with `end_time = now +
duration` and no entrants, all other fields taken from the creation
inputs, inserts it into the store before publishing it to the cache, and
an immediate cache lookup by the anchor id returns it. -/
theorem create_roundtrip (s : ManagerState) (guildId channelId rootMsgId : Nat)
    (amount now duration : Int) :
    (add_from_message s guildId channelId rootMsgId amount now duration).airdrop =
      { guild_id := guildId, channel_id := channelId, message_id := rootMsgId,
        amount := amount, end_time := now + duration, entrants := [] } ∧
    (add_from_message s guildId channelId rootMsgId amount now duration).trace =
      [.dbInsert (add_from_message s guildId channelId rootMsgId amount now
          duration).airdrop.to_db_dict,
       .putCache rootMsgId] ∧
    (add_from_message s guildId channelId rootMsgId amount now duration).state.store =
      s.store ++ [(add_from_message s guildId channelId rootMsgId amount now
          duration).airdrop.to_db_dict] ∧
    get_airdrop (add_from_message s guildId channelId rootMsgId amount now
        duration).state.state (.byId rootMsgId) =
      .ok (add_from_message s guildId channelId rootMsgId amount now
        duration).airdrop := by
  refine ⟨rfl, rfl, rfl, ?_⟩
  simp [add_from_message, get_airdrop, cacheGet_cachePut_same]

/-- C8 counterexample: the claim places the affordability check outside
`new_airdrop`, but on a concrete run with insufficient funds the trace of
`new_airdrop` itself opens with the Funds-Backend check and contains the
insufficient-funds response — the check and its reporting are internal to
the create operation. -/
theorem create_checks_funds_internally_cex :
    (new_airdrop false ⟨[], []⟩ 1 2 100 1000 60 none 42).trace.head? =
      some (.canAffordCheck 100) ∧
    Effect.canAffordCheck 100 ∈
      (new_airdrop false ⟨[], []⟩ 1 2 100 1000 60 none 42).trace ∧
    Effect.respondInsufficientFunds 100 ∈
      (new_airdrop false ⟨[], []⟩ 1 2 100 1000 60 none 42).trace := by
  decide

/-- C8 amended: the affordability check is the first thing `new_airdrop`
itself does; when the Funds Backend reports insufficiency it responds to
the initiating caller and returns before any state is created — no event
is persisted to the store and none enters the cache. -/
theorem insufficient_funds_checked_inside_create (canAfford : Bool)
    (s : ManagerState) (guildId ctxChannelId : Nat) (amount : Int)
    (now duration : Int) (channel : Option Nat) (rootMsgId : Nat) :
    (new_airdrop canAfford s guildId ctxChannelId amount now duration channel
        rootMsgId).trace.head? = some (.canAffordCheck amount) ∧
    new_airdrop false s guildId ctxChannelId amount now duration channel
        rootMsgId =
      ⟨none, s, [.canAffordCheck amount, .respondInsufficientFunds amount]⟩ := by
  cases canAfford <;> simp [new_airdrop, add_from_message]

/-- C9 counterexample: a successful concrete run of `new_airdrop` returns
`None` even though the event was created (it is in the cache afterwards);
the claim that create returns the created Event to its caller fails. -/
theorem create_returns_none_cex :
    (new_airdrop true ⟨[], []⟩ 1 2 100 1000 60 none 42).retval = none ∧
    cacheGet (new_airdrop true ⟨[], []⟩ 1 2 100 1000 60 none 42).state.state 42 =
      some { guild_id := 1, channel_id := 2, message_id := 42, amount := 100,
             end_time := 1060, entrants := [] } := by
  decide

/-- C9 amended: `new_airdrop` returns `None` on every successful run; the
created Event is returned by the internal helper `_add_from_message` and
is retrievable from the cache under the anchor id. -/
theorem create_returns_none_event_in_cache (s : ManagerState)
    (guildId ctxChannelId : Nat) (amount now duration : Int)
    (channel : Option Nat) (rootMsgId : Nat) :
    (new_airdrop true s guildId ctxChannelId amount now duration channel
        rootMsgId).retval = none ∧
    cacheGet (new_airdrop true s guildId ctxChannelId amount now duration
        channel rootMsgId).state.state rootMsgId =
      some (add_from_message s guildId (channel.getD ctxChannelId) rootMsgId
        amount now duration).airdrop := by
  refine ⟨rfl, ?_⟩
  simp [new_airdrop, add_from_message, cacheGet_cachePut_same]

/-- C10: a lookup with a live entity returns that entity without
consulting the cache (for any cache contents), so `resolve` on an entity
whose event was already removed does not fail `NotFound`: it invokes the
funds distribution again, and only then fails — with the raw `KeyError`
of `del self._state[...]`, not with `NotFound`. -/
theorem byEntity_skips_lookup_keyerror (d : Airdrop → Bool)
    (s : ManagerState) (a : Airdrop)
    (habsent : cacheGet s.state a.message_id = none) (hd : d a = true) :
    (∀ c : Cache, get_airdrop c (.byEntity a) = .ok a) ∧
    resolveOp d s (.byEntity a) =
      ⟨.error (.keyError a.message_id), s,
       [.distribute a.message_id a.entrants a.amount]⟩ := by
  refine ⟨fun c => rfl, ?_⟩
  simp [resolveOp, removeOp, get_airdrop, cacheDel, habsent, hd]

/-- Witness for C10: resolving the entity `wa1` against an empty manager
state distributes again and raises `KeyError 42`. -/
theorem byEntity_skips_lookup_keyerror_witness :
    resolveOp (fun _ => true) ⟨[], []⟩ (.byEntity wa1) =
      ⟨.error (.keyError 42), ⟨[], []⟩, [.distribute 42 [7, 8] 100]⟩ :=
  (byEntity_skips_lookup_keyerror (fun _ => true) ⟨[], []⟩ wa1 rfl rfl).2

/-- A successful `_remove` on a live entity: cache deletion, unpin, store
deletion, in that order. -/
theorem removeOp_byEntity_ok (s : ManagerState) (ad : Airdrop)
    (hpres : (cacheGet s.state ad.message_id).isSome = true) :
    removeOp s (.byEntity ad) =
      ⟨.ok (), ⟨eraseKey s.state ad.message_id, storeDelete s.store ad.message_id⟩,
       [.removeCache ad.message_id, .unpin ad.channel_id ad.message_id,
        .dbDelete ad.message_id]⟩ := by
  simp [removeOp, get_airdrop_byEntity, cacheDel, hpres]

/-- Resolving an id that is absent from the cache raises `NotFound`
before any side effect. -/
theorem resolveOp_byId_absent (d : Airdrop → Bool) (s : ManagerState)
    (id : Nat) (h : cacheGet s.state id = none) :
    resolveOp d s (.byId id) = ⟨.error (.notFound id), s, []⟩ := by
  simp [resolveOp, get_airdrop, h]

/-- Cancelling an id that is absent from the cache raises `NotFound`
before any side effect. -/
theorem cancelOp_byId_absent (s : ManagerState) (id : Nat)
    (h : cacheGet s.state id = none) :
    cancelOp s (.byId id) = ⟨.error (.notFound id), s, []⟩ := by
  simp [cancelOp, get_airdrop, h]

/-- C7: a cache refresh from the store is merge-only — the resulting
binding for any key is the last one the store read yields for that key
when there is one (records merged in, overwriting by id), and the old
binding otherwise; in particular every key present before the refresh is
still present after it. -/
theorem refresh_merge_only (s : ManagerState) (k : Nat) :
    cacheGet (fetchOp s).state k =
      (match lastLookup (storeEntries s.store) k with
       | some v => some v
       | none => cacheGet s.state k) ∧
    ((cacheGet s.state k).isSome = true →
      (cacheGet (fetchOp s).state k).isSome = true) := by
  have h2 : cacheGet (fetchOp s).state k =
      (match lastLookup (storeEntries s.store) k with
       | some v => some v
       | none => cacheGet s.state k) :=
    cacheGet_cacheUpdate (storeEntries s.store) s.state k
  refine ⟨h2, fun hpre => ?_⟩
  rw [h2]
  cases hl : lastLookup (storeEntries s.store) k <;> simp [hpre]

/-- Witness for C7: the entry of `wS1` survives a refresh. -/
theorem refresh_merge_only_witness :
    (cacheGet (fetchOp wS1).state 42).isSome = true :=
  (refresh_merge_only wS1 42).2 rfl

/-- C1: once a `resolve(id)` or a `cancel(id)` has succeeded the event is
gone from the cache and the store, and any later `resolve` or `cancel`
referencing the same id fails with `NotFound`, leaves the state
untouched, and performs no side effect (empty trace: no distribution, no
store or cache mutation, no Notifier call). -/
theorem single_resolution (d d2 : Airdrop → Bool) (s s1 : ManagerState)
    (id : Nat) (hwf : WF s)
    (h : ((resolveOp d s (.byId id)).res = .ok () ∧
            s1 = (resolveOp d s (.byId id)).state) ∨
         ((cancelOp s (.byId id)).res = .ok () ∧
            s1 = (cancelOp s (.byId id)).state)) :
    cacheGet s1.state id = none ∧ storeFind s1.store id = none ∧
    resolveOp d2 s1 (.byId id) = ⟨.error (.notFound id), s1, []⟩ ∧
    cancelOp s1 (.byId id) = ⟨.error (.notFound id), s1, []⟩ := by
  have key : cacheGet s1.state id = none ∧ storeFind s1.store id = none := by
    rcases h with ⟨hok, hs1⟩ | ⟨hok, hs1⟩
    · cases hc : cacheGet s.state id with
      | none =>
        rw [resolveOp_byId_absent d s id hc] at hok
        simp at hok
      | some a =>
        have hid : id = a.message_id := hwf.1.2 (id, a) (mem_of_cacheGet hc)
        have hpres : (cacheGet s.state a.message_id).isSome = true := by
          rw [← hid, hc]; rfl
        cases hd : d a with
        | false =>
          have hcomp : resolveOp d s (.byId id) =
              ⟨.error (.distributionFailure a.message_id), s,
               [.distribute a.message_id a.entrants a.amount]⟩ := by
            simp [resolveOp, get_airdrop, hc, hd]
          rw [hcomp] at hok
          simp at hok
        | true =>
          have heq : resolveOp d s (.byId id) = resolveOp d s (.byEntity a) := by
            simp [resolveOp, get_airdrop, hc]
          rw [heq, resolveOp_byEntity_ok d s a hpres hd] at hs1
          subst hs1
          constructor
          · rw [hid]
            exact cacheGet_eraseKey_self _ _ hwf.1.1
          · rw [hid]
            exact storeFind_storeDelete_self _ _ hwf.2
    · cases hc : cacheGet s.state id with
      | none =>
        rw [cancelOp_byId_absent s id hc] at hok
        simp at hok
      | some a =>
        have hid : id = a.message_id := hwf.1.2 (id, a) (mem_of_cacheGet hc)
        have hpres : (cacheGet s.state a.message_id).isSome = true := by
          rw [← hid, hc]; rfl
        have heq : cancelOp s (.byId id) =
            ⟨.ok (),
             ⟨eraseKey s.state a.message_id, storeDelete s.store a.message_id⟩,
             [.removeCache a.message_id, .unpin a.channel_id a.message_id,
              .dbDelete a.message_id, .unpin a.channel_id a.message_id,
              .notifyCancelled a.message_id]⟩ := by
          simp [cancelOp, get_airdrop, hc, removeOp_byEntity_ok s a hpres]
        rw [heq] at hs1
        subst hs1
        constructor
        · rw [hid]
          exact cacheGet_eraseKey_self _ _ hwf.1.1
        · rw [hid]
          exact storeFind_storeDelete_self _ _ hwf.2
  exact ⟨key.1, key.2, resolveOp_byId_absent d2 s1 id key.1,
         cancelOp_byId_absent s1 id key.1⟩

/-- Witness for C1: after a successful resolve of id 42 on `wS1`, both a
second resolve and a cancel of 42 fail `NotFound` with no side effect. -/
theorem single_resolution_witness :
    cacheGet (resolveOp (fun _ => true) wS1 (.byId 42)).state.state 42 = none ∧
    storeFind (resolveOp (fun _ => true) wS1 (.byId 42)).state.store 42 = none ∧
    resolveOp (fun _ => true) (resolveOp (fun _ => true) wS1 (.byId 42)).state
        (.byId 42) =
      ⟨.error (.notFound 42), (resolveOp (fun _ => true) wS1 (.byId 42)).state, []⟩ ∧
    cancelOp (resolveOp (fun _ => true) wS1 (.byId 42)).state (.byId 42) =
      ⟨.error (.notFound 42), (resolveOp (fun _ => true) wS1 (.byId 42)).state, []⟩ :=
  single_resolution (fun _ => true) (fun _ => true) wS1 _ 42 (by decide)
    (.inl ⟨rfl, rfl⟩)

/-- A second concrete airdrop (message id 43, expired at 1000). -/
def wa2 : Airdrop :=
  { guild_id := 1, channel_id := 2, message_id := 43, amount := 60,
    end_time := 1000, entrants := [9] }

/-- A concrete state with two airdrops, both expired by time 2000. -/
def wS2 : ManagerState :=
  ⟨[(42, wa1), (43, wa2)], [wa1.to_db_dict, wa2.to_db_dict]⟩

/-- C4 counterexample: at time 2000 both cached events of `wS2` are due;
distribution fails for event 42 and succeeds for event 43, yet the sweep
ends with the propagated exception, never even dispatches event 43 (no
log line, no distribution), and leaves it cached — one failing event does
prevent the other due event from being attempted, because `frame` has no
per-event exception handling. -/
theorem sweep_not_isolated_cex :
    (frameOp (fun a => a.message_id == 43) 2000 wS2).res =
      .error (.distributionFailure 42) ∧
    Effect.logDispatch 43 ∉
      (frameOp (fun a => a.message_id == 43) 2000 wS2).trace ∧
    Effect.distribute 43 [9] 60 ∉
      (frameOp (fun a => a.message_id == 43) 2000 wS2).trace ∧
    cacheGet (frameOp (fun a => a.message_id == 43) 2000 wS2).state.state 43 =
      some wa2 := by
  refine ⟨rfl, ?_, ?_, ?_⟩ <;> decide

/-- C4 amended: a resolve failure during the sweep loop is not caught —
the exception propagates out of the sweep at the failing event: the
result state and trace are those at the failure point, independent of the
remaining due events, which are not attempted. -/
theorem sweep_failure_aborts_rest (d : Airdrop → Bool) (s : ManagerState)
    (ad : Airdrop) (rest : List Airdrop) (e : AirdropError)
    (h : (resolveOp d s (.byEntity ad)).res = .error e) :
    resolveLoop d s (ad :: rest) =
      ⟨.error e, (resolveOp d s (.byEntity ad)).state,
       .logDispatch ad.message_id :: (resolveOp d s (.byEntity ad)).trace⟩ := by
  simp [resolveLoop, h]

/-- Witness for C4's amended statement at a concrete failing head. -/
theorem sweep_failure_aborts_rest_witness :
    resolveLoop (fun _ => false) wS1 [wa1, wa2] =
      ⟨.error (.distributionFailure 42),
       (resolveOp (fun _ => false) wS1 (.byEntity wa1)).state,
       .logDispatch 42 :: (resolveOp (fun _ => false) wS1 (.byEntity wa1)).trace⟩ :=
  sweep_failure_aborts_rest (fun _ => false) wS1 wa1 [wa2]
    (.distributionFailure 42) rfl

/-! ## Sweep machinery for C2 -/

/-- Iterated cache deletion by the message ids of a list of airdrops. -/
def eraseAll : Cache → List Airdrop → Cache
  | c, [] => c
  | c, ad :: rest => eraseAll (eraseKey c ad.message_id) rest

/-- Iterated store deletion by the message ids of a list of airdrops. -/
def deleteAll : List DbDoc → List Airdrop → List DbDoc
  | st, [] => st
  | st, ad :: rest => deleteAll (storeDelete st ad.message_id) rest

/-- The trace of a sweep that resolves the listed airdrops in order. -/
def sweepTrace : List Airdrop → List Effect
  | [] => []
  | ad :: rest => resolveEvTrace ad ++ sweepTrace rest

/-- When every listed airdrop is cached (pairwise-distinct ids, cache
keys distinct) and every distribution succeeds, the resolve loop succeeds
and erases exactly the listed ids from cache and store, emitting the
per-event blocks in order. -/
theorem resolveLoop_all_ok (d : Airdrop → Bool) (l : List Airdrop) :
    ∀ (s : ManagerState),
      (∀ ad ∈ l, (cacheGet s.state ad.message_id).isSome = true) →
      (l.map Airdrop.message_id).Nodup →
      (s.state.map Prod.fst).Nodup →
      (∀ ad ∈ l, d ad = true) →
      resolveLoop d s l =
        ⟨.ok (), ⟨eraseAll s.state l, deleteAll s.store l⟩, sweepTrace l⟩ := by
  induction l with
  | nil =>
    intro s _ _ _ _
    simp [resolveLoop, eraseAll, deleteAll, sweepTrace]
  | cons ad rest ih =>
    intro s hpres hnd hkeys hd
    have h1 := resolveOp_byEntity_ok d s ad
      (hpres ad (List.mem_cons_self _ _)) (hd ad (List.mem_cons_self _ _))
    have hmid : ad.message_id ∉ rest.map Airdrop.message_id :=
      (List.nodup_cons.mp (by simpa using hnd)).1
    have hrec := ih
      ⟨eraseKey s.state ad.message_id, storeDelete s.store ad.message_id⟩
      (fun ad' had' => by
        have hne : ad'.message_id ≠ ad.message_id := by
          intro he
          exact hmid (he ▸ List.mem_map.mpr ⟨ad', had', rfl⟩)
        simpa [cacheGet_eraseKey_other s.state ad.message_id ad'.message_id hne]
          using hpres ad' (List.mem_cons_of_mem _ had'))
      ((List.nodup_cons.mp (by simpa using hnd)).2)
      (nodup_keys_eraseKey _ hkeys)
      (fun ad' had' => hd ad' (List.mem_cons_of_mem _ had'))
    simp [resolveLoop, h1, hrec, eraseAll, deleteAll, sweepTrace, resolveEvTrace]

/-- Lookup after iterated deletion: a deleted id reads back `none`, any
other id is untouched (cache keys distinct). -/
theorem cacheGet_eraseAll (l : List Airdrop) :
    ∀ (c : Cache) (k : Nat), (c.map Prod.fst).Nodup →
      cacheGet (eraseAll c l) k =
        if k ∈ l.map Airdrop.message_id then none else cacheGet c k := by
  induction l with
  | nil => intro c k _; simp [eraseAll]
  | cons ad rest ih =>
    intro c k hnd
    have he : eraseAll c (ad :: rest) = eraseAll (eraseKey c ad.message_id) rest := rfl
    rw [he, ih (eraseKey c ad.message_id) k (nodup_keys_eraseKey _ hnd)]
    by_cases hmem : k ∈ rest.map Airdrop.message_id
    · simp [hmem]
    · by_cases hk : k = ad.message_id
      · subst hk
        simp [hmem, cacheGet_eraseKey_self c _ hnd]
      · simp [hmem, hk, cacheGet_eraseKey_other c _ _ hk]

/-- Store lookup after iterated deletion: a deleted id reads back `none`,
any other id is untouched (store ids distinct). -/
theorem storeFind_deleteAll (l : List Airdrop) :
    ∀ (st : List DbDoc) (k : Nat), (st.map DbDoc.id).Nodup →
      storeFind (deleteAll st l) k =
        if k ∈ l.map Airdrop.message_id then none else storeFind st k := by
  induction l with
  | nil => intro st k _; simp [deleteAll]
  | cons ad rest ih =>
    intro st k hnd
    have he : deleteAll st (ad :: rest) =
        deleteAll (storeDelete st ad.message_id) rest := rfl
    rw [he, ih (storeDelete st ad.message_id) k (nodup_ids_storeDelete _ hnd)]
    by_cases hmem : k ∈ rest.map Airdrop.message_id
    · simp [hmem]
    · by_cases hk : k = ad.message_id
      · subst hk
        simp [hmem, storeFind_storeDelete_self st _ hnd]
      · simp [hmem, hk, storeFind_storeDelete_other st _ _ hk]

/-- Distribution effects of a sweep trace correspond exactly to the
resolved airdrops. -/
theorem mem_distribute_sweepTrace (l : List Airdrop) (k : Nat)
    (e : List Nat) (am : Int) :
    Effect.distribute k e am ∈ sweepTrace l ↔
      ∃ ad, ad ∈ l ∧ ad.message_id = k ∧ ad.entrants = e ∧ ad.amount = am := by
  induction l with
  | nil => simp [sweepTrace]
  | cons ad rest ih =>
    simp [sweepTrace, resolveEvTrace, ih]
    aesop

/-- The sweep condition `airdrop.ended and airdrop.ends_in <= 0` holds
exactly when the expiry time has been reached. -/
theorem due_iff (a : Airdrop) (now : Int) :
    (a.ended now && decide (a.ends_in now ≤ 0)) = true ↔ a.end_time ≤ now := by
  simp [Airdrop.ended, Airdrop.ends_in]

/-- Membership in the due filter: the airdrop is a cached value (keyed by
its id) whose expiry has been reached. -/
theorem mem_dueFilter_iff {now : Int} {c : Cache} (hwfc : WFc c)
    (ad : Airdrop) :
    ad ∈ dueFilter now c ↔ (ad.message_id, ad) ∈ c ∧ ad.end_time ≤ now := by
  unfold dueFilter
  rw [List.mem_filter]
  constructor
  · rintro ⟨hmem, hpred⟩
    obtain ⟨p, hp, hp2⟩ := List.mem_map.mp hmem
    obtain ⟨k1, v1⟩ := p
    have hs : v1 = ad := hp2
    subst hs
    have hk := hwfc.2 (k1, v1) hp
    rw [← hk]
    exact ⟨hp, (due_iff v1 now).mp hpred⟩
  · rintro ⟨hmem, hdue⟩
    exact ⟨List.mem_map.mpr ⟨(ad.message_id, ad), hmem, rfl⟩,
           (due_iff ad now).mpr hdue⟩

/-- The refresh of `frame` preserves cache well-formedness. -/
theorem WFc_fetchOp {s : ManagerState} (hwf : WFc s.state) :
    WFc (fetchOp s).state := by
  apply WFc_cacheUpdate
  · exact hwf
  · intro p hp
    obtain ⟨ad, _, rfl⟩ := List.mem_map.mp hp
    rfl

/-- C2: with a well-formed state and a Funds Backend that succeeds, a
sweep at time `now` resolves exactly the cached events whose `end_time`
has been reached — each such event is distributed and leaves the cache —
while every cached event with a future `end_time` keeps its cache entry
and store record unchanged and is never distributed; and every
distribution effect of the sweep belongs to a cached event that was due. -/
theorem sweep_resolves_exactly_due (d : Airdrop → Bool) (now : Int)
    (s : ManagerState) (hwf : WF s) (hd : ∀ a, d a = true) :
    (frameOp d now s).res = .ok () ∧
    (∀ k ad, cacheGet (fetchOp s).state k = some ad → ad.end_time ≤ now →
      cacheGet (frameOp d now s).state.state k = none ∧
      Effect.distribute k ad.entrants ad.amount ∈ (frameOp d now s).trace) ∧
    (∀ k ad, cacheGet (fetchOp s).state k = some ad → now < ad.end_time →
      cacheGet (frameOp d now s).state.state k = some ad ∧
      storeFind (frameOp d now s).state.store k = storeFind (fetchOp s).store k ∧
      ∀ e am, Effect.distribute k e am ∉ (frameOp d now s).trace) ∧
    (∀ k e am, Effect.distribute k e am ∈ (frameOp d now s).trace →
      ∃ ad, cacheGet (fetchOp s).state k = some ad ∧ ad.end_time ≤ now) := by
  have hwf1 : WFc (fetchOp s).state := WFc_fetchOp hwf.1
  have hstore1 : ((fetchOp s).store.map DbDoc.id).Nodup := hwf.2
  have hmapeq : ((fetchOp s).state.map Prod.snd).map Airdrop.message_id =
      (fetchOp s).state.map Prod.fst := by
    rw [List.map_map]
    exact List.map_congr_left (fun p hp => (hwf1.2 p hp).symm)
  have hlnd : ((dueFilter now (fetchOp s).state).map Airdrop.message_id).Nodup := by
    have hsub : List.Sublist
        ((dueFilter now (fetchOp s).state).map Airdrop.message_id)
        (((fetchOp s).state.map Prod.snd).map Airdrop.message_id) :=
      (List.filter_sublist _).map _
    rw [hmapeq] at hsub
    exact hwf1.1.sublist hsub
  have hframe : frameOp d now s =
      ⟨.ok (),
       ⟨eraseAll (fetchOp s).state (dueFilter now (fetchOp s).state),
        deleteAll (fetchOp s).store (dueFilter now (fetchOp s).state)⟩,
       sweepTrace (dueFilter now (fetchOp s).state)⟩ := by
    refine resolveLoop_all_ok d (dueFilter now (fetchOp s).state) (fetchOp s)
      (fun ad had => ?_) hlnd hwf1.1 (fun ad _ => hd ad)
    exact isSome_cacheGet_of_mem ((mem_dueFilter_iff hwf1 ad).mp had).1
  refine ⟨by rw [hframe], fun k ad hget hdue => ?_, fun k ad hget hfut => ?_,
          fun k e am hmem => ?_⟩
  · have hmem : (k, ad) ∈ (fetchOp s).state := mem_of_cacheGet hget
    have hk : k = ad.message_id := hwf1.2 _ hmem
    have hinl : ad ∈ dueFilter now (fetchOp s).state :=
      (mem_dueFilter_iff hwf1 ad).mpr ⟨hk ▸ hmem, hdue⟩
    have hkin : k ∈ (dueFilter now (fetchOp s).state).map Airdrop.message_id :=
      List.mem_map.mpr ⟨ad, hinl, hk.symm⟩
    constructor
    · rw [hframe]
      rw [show (OpResult.mk (α := Unit) (.ok ())
            ⟨eraseAll (fetchOp s).state (dueFilter now (fetchOp s).state),
             deleteAll (fetchOp s).store (dueFilter now (fetchOp s).state)⟩
            (sweepTrace (dueFilter now (fetchOp s).state))).state.state =
          eraseAll (fetchOp s).state (dueFilter now (fetchOp s).state) from rfl]
      rw [cacheGet_eraseAll _ _ _ hwf1.1]
      simp [hkin]
    · rw [hframe]
      exact (mem_distribute_sweepTrace _ _ _ _).mpr ⟨ad, hinl, hk.symm, rfl, rfl⟩
  · have hmem : (k, ad) ∈ (fetchOp s).state := mem_of_cacheGet hget
    have hnotin : k ∉ (dueFilter now (fetchOp s).state).map Airdrop.message_id := by
      intro hin
      obtain ⟨ad', hin', he⟩ := List.mem_map.mp hin
      have hp := (mem_dueFilter_iff hwf1 ad').mp hin'
      have hga := cacheGet_of_mem_nodup hwf1.1 hp.1
      rw [he, hget] at hga
      injection hga with hga
      subst hga
      exact absurd hp.2 (not_le.mpr hfut)
    refine ⟨?_, ?_, fun e am hmemtr => ?_⟩
    · rw [hframe]
      rw [show (OpResult.mk (α := Unit) (.ok ())
            ⟨eraseAll (fetchOp s).state (dueFilter now (fetchOp s).state),
             deleteAll (fetchOp s).store (dueFilter now (fetchOp s).state)⟩
            (sweepTrace (dueFilter now (fetchOp s).state))).state.state =
          eraseAll (fetchOp s).state (dueFilter now (fetchOp s).state) from rfl]
      rw [cacheGet_eraseAll _ _ _ hwf1.1]
      simp [hnotin, hget]
    · rw [hframe]
      rw [show (OpResult.mk (α := Unit) (.ok ())
            ⟨eraseAll (fetchOp s).state (dueFilter now (fetchOp s).state),
             deleteAll (fetchOp s).store (dueFilter now (fetchOp s).state)⟩
            (sweepTrace (dueFilter now (fetchOp s).state))).state.store =
          deleteAll (fetchOp s).store (dueFilter now (fetchOp s).state) from rfl]
      rw [storeFind_deleteAll _ _ _ hstore1]
      simp [hnotin]
    · rw [hframe] at hmemtr
      obtain ⟨ad', hin', he, _, _⟩ :=
        (mem_distribute_sweepTrace _ _ _ _).mp hmemtr
      exact hnotin (List.mem_map.mpr ⟨ad', hin', he⟩)
  · rw [hframe] at hmem
    obtain ⟨ad', hin', he, _, _⟩ := (mem_distribute_sweepTrace _ _ _ _).mp hmem
    have hp := (mem_dueFilter_iff hwf1 ad').mp hin'
    refine ⟨ad', ?_, hp.2⟩
    have hga := cacheGet_of_mem_nodup hwf1.1 hp.1
    rwa [he] at hga

/-- A third concrete airdrop (message id 44, expiring in the future at
3000). -/
def wa3 : Airdrop :=
  { guild_id := 1, channel_id := 2, message_id := 44, amount := 70,
    end_time := 3000, entrants := [5] }

/-- A concrete state with one due (42) and one future (44) airdrop. -/
def wS3 : ManagerState :=
  ⟨[(42, wa1), (44, wa3)], [wa1.to_db_dict, wa3.to_db_dict]⟩

/-- Witness for C2: sweeping `wS3` at time 2000 resolves the due event 42
(distributed, gone from cache) and leaves the future event 44 cached. -/
theorem sweep_resolves_exactly_due_witness :
    (frameOp (fun _ => true) 2000 wS3).res = .ok () ∧
    cacheGet (frameOp (fun _ => true) 2000 wS3).state.state 42 = none ∧
    Effect.distribute 42 [7, 8] 100 ∈ (frameOp (fun _ => true) 2000 wS3).trace ∧
    cacheGet (frameOp (fun _ => true) 2000 wS3).state.state 44 = some wa3 :=
  ⟨(sweep_resolves_exactly_due (fun _ => true) 2000 wS3 (by decide)
      (fun _ => rfl)).1,
   ((sweep_resolves_exactly_due (fun _ => true) 2000 wS3 (by decide)
      (fun _ => rfl)).2.1 42 wa1 (by decide) (by decide)).1,
   ((sweep_resolves_exactly_due (fun _ => true) 2000 wS3 (by decide)
      (fun _ => rfl)).2.1 42 wa1 (by decide) (by decide)).2,
   ((sweep_resolves_exactly_due (fun _ => true) 2000 wS3 (by decide)
      (fun _ => rfl)).2.2.1 44 wa3 (by decide) (by decide)).1⟩

end AirdropMgr
